import Mathlib

/-!
Verification of the pyocr abstraction layer over external OCR engines.

The repository ships only its test suite under src/tests; the wrapped
modules (pyocr/tesseract.py, pyocr/cuneiform.py, pyocr/libtesseract,
pyocr/builders.py) are not part of src/.  Following the scope statement of
the specification ("a thin abstraction layer over external OCR engines ...
version-string parsing, hOCR box parsing, iterating a result cursor to
rebuild line/word structure ... no failure-recovery strategy beyond raising
on non-zero exit codes"), the definitions below are modelled from the spec,
with the concrete input/output pairs pinned down by the test suite in
src/tests.  Python strings are embedded as lists of characters, process
interaction (exit status and captured output of the wrapped engine) is
passed explicitly, and Python exceptions are an explicit error type.
-/

/-- Characters of a string literal; used to state properties over the
Python strings that appear in the tests. -/
def strL (s : String) : List Char := s.data

/-- Python exceptions raised by the modelled pyocr operations. -/
inductive PyExc where
  | tesseractError (status : Int) (message : List Char)
  | cuneiformError (status : Int) (message : List Char)
  | notImplementedError
  | indexError
  | otherExc (name : List Char)
deriving DecidableEq, Repr

/-- Mirror of the Python expression s.split(sep) for a one-character
separator: non-collapsing split, the empty string splits to a single empty
piece. -/
def splitOnChar (c : Char) : List Char → List (List Char)
  | [] => [[]]
  | x :: xs =>
    match splitOnChar c xs with
    | [] => [[x]]
    | h :: t => if x = c then [] :: h :: t else (x :: h) :: t

/-- Join pieces with a one-character separator; inverse of splitOnChar. -/
def joinSep (c : Char) : List (List Char) → List Char
  | [] => []
  | [p] => p
  | p :: ps => p ++ c :: joinSep c ps

/-- The longest prefix not containing c; mirror of the Python expression
s.split(c)[0]. -/
def takeUntilChar (c : Char) : List Char → List Char
  | [] => []
  | x :: xs => if x = c then [] else x :: takeUntilChar c xs

/-- Longest prefix of decimal digits. -/
def leadingDigits : List Char → List Char
  | [] => []
  | x :: xs => if x.isDigit then x :: leadingDigits xs else []

/-- Numeric value of a list of decimal digits. -/
def digitsToNat (l : List Char) : Nat :=
  l.foldl (fun acc c => 10 * acc + (c.toNat - '0'.toNat)) 0

/-- Mirror of the Python int() conversion restricted to the non-negative
version components that occur here: succeeds exactly on non-empty all-digit
strings. -/
def pyIntDigits (l : List Char) : Option Nat :=
  if l ≠ [] ∧ l.all (·.isDigit) then some (digitsToNat l) else none

/-- Decidable substring test: pat occurs contiguously in the second list. -/
def isPrefixOfB : List Char → List Char → Bool
  | [], _ => true
  | _ :: _, [] => false
  | a :: as, b :: bs => a = b && isPrefixOfB as bs

/-- Substring containment used to state "message containing ...". -/
def containsSub (pat : List Char) : List Char → Bool
  | [] => isPrefixOfB pat []
  | b :: rest => isPrefixOfB pat (b :: rest) || containsSub pat rest

/-- Modelled from the spec: error message of pyocr/tesseract.py
get_version when the version token does not split into components
(src/tests/tests_tesseract.py test_version_error_splitting). -/
def splitFailMsg (banner : List Char) : List Char :=
  strL "Unable to parse Tesseract version (spliting failed): [" ++ banner ++ [']']

/-- Modelled from the spec: error message of pyocr/tesseract.py
get_version when a version component is not a number
(src/tests/tests_tesseract.py test_version_error_nan). -/
def nanMsg (banner : List Char) : List Char :=
  strL "Unable to parse Tesseract version (not a number): [" ++ banner ++ [']']

/-- Modelled from the spec: the leading-v strip of the version token in
pyocr/tesseract.py get_version — Windows builds report a version such as
v4.0.0.20181030 (src/tests/tests_tesseract.py test_version_windows). -/
def pyVStrip : List Char → List Char
  | [] => []
  | x :: xs => if x = 'v' then xs else x :: xs

/-- Update component of a version: 0 when absent, otherwise the numeric
value of the leading digits of the third dot-component, so that trailing
text such as dev2 or alpha is ignored
(src/tests/tests_tesseract.py test_version_tesseract4dev and
src/tests/tests_libtesseract.py test_version). -/
def patchNum : List (List Char) → Nat
  | [] => 0
  | c :: _ => digitsToNat (leadingDigits c)

/-- Modelled from the spec: the version-token parser of pyocr/tesseract.py
get_version.  The token (second whitespace-separated word of the banner,
truncated at the first newline) is stripped of a leading v, split on dots;
the first two components must be numbers, the third is optional and its
trailing non-digit text is ignored.  Failures raise TesseractError with
status 0 (src/tests/tests_tesseract.py lines 51-149). -/
def tesseract_parse_token (banner tok : List Char) : Except PyExc (Nat × Nat × Nat) :=
  match splitOnChar '.' (pyVStrip tok) with
  | a :: b :: rest =>
    match pyIntDigits a, pyIntDigits b with
    | some ma, some mi => .ok (ma, mi, patchNum rest)
    | _, _ => .error (.tesseractError 0 (nanMsg banner))
  | _ => .error (.tesseractError 0 (splitFailMsg banner))

/-- Modelled from the spec: version parsing of pyocr/tesseract.py
get_version applied to the whole banner printed by the engine: the version
token is the second space-separated word, truncated at the first
newline. -/
def tesseract_parse_version (banner : List Char) : Except PyExc (Nat × Nat × Nat) :=
  match splitOnChar ' ' banner with
  | _ :: t :: _ => tesseract_parse_token banner (takeUntilChar '\n' t)
  | _ => .error (.tesseractError 0 (splitFailMsg banner))

/-- Modelled from the spec: pyocr/tesseract.py get_version.  The first
argument is the module-global cache g_version; the banner and exit status
stand for the output of the engine invocation that would happen on a cache
miss.  The result carries the returned triple, a flag recording whether the
engine was invoked, and the new cache
(src/tests/tests_tesseract.py test_version_cache, test_version_error). -/
def tesseract_get_version (g : Option (Nat × Nat × Nat)) (banner : List Char)
    (ret : Int) : Except PyExc ((Nat × Nat × Nat) × Bool × Option (Nat × Nat × Nat)) :=
  match g with
  | some v => .ok (v, false, some v)
  | none =>
    if ret ≠ 0 then .error (.tesseractError ret banner)
    else
      match tesseract_parse_version banner with
      | .ok v => .ok (v, true, some v)
      | .error e => .error e

/-- Modelled from the spec: pyocr/libtesseract get_version.  The C API
returns a bare version string; the part before the first space is split on
dots, the first two components are numbers and trailing non-digit text of
the third is ignored (src/tests/tests_libtesseract.py test_version). -/
def libtesseract_get_version (s : List Char) : Option (Nat × Nat × Nat) :=
  match splitOnChar '.' (takeUntilChar ' ' s) with
  | a :: b :: rest =>
    match pyIntDigits a, pyIntDigits b with
    | some ma, some mi => some (ma, mi, patchNum rest)
    | _, _ => none
  | _ => none

/-- Modelled from the spec: pyocr/tesseract.py get_available_languages.
On a non-zero exit status it raises TesseractError with that status and
the fixed message "unable to get languages"; on success the language list
is read from the lines after the header
(src/tests/tests_tesseract.py test_langs, test_langs_error). -/
def tesseract_get_available_languages (ret : Int) (output : List Char) :
    Except PyExc (List (List Char)) :=
  if ret ≠ 0 then .error (.tesseractError ret (strL "unable to get languages"))
  else .ok (((splitOnChar '\n' output).drop 1).filter (fun l => l ≠ []))

/-- Result of opening an output file produced by the engine. -/
inductive OpenResult where
  | found (content : List Char)
  | fileNotFound
  | otherError (e : PyExc)
deriving DecidableEq, Repr

/-- Modelled from the spec: the output-file search loop of
pyocr/tesseract.py image_to_string.  Extensions are tried in order; a
FileNotFoundError moves to the next extension, any other exception raised
while opening propagates, a found file is read with the builder
(src/tests/tests_tesseract.py test_text_no_output,
test_text_cannot_open_file). -/
def tryExts {α : Type} (openFile : List Char → OpenResult) (read : List Char → α) :
    List (List Char) → Option (Except PyExc α)
  | [] => none
  | e :: rest =>
    match openFile e with
    | .found c => some (.ok (read c))
    | .fileNotFound => tryExts openFile read rest
    | .otherError exc => some (.error exc)

/-- Modelled from the spec: pyocr/tesseract.py image_to_string after the
engine run.  A non-zero exit status raises TesseractError with that status
and the captured output; otherwise the output file is searched over the
builder file extensions, and if none can be found a TesseractError with
status -1 and an "Unable to find output file (tested ...)" message is
raised (src/tests/tests_tesseract.py test_text_error,
test_text_no_output). -/
def tesseract_image_to_string {α : Type} (status : Int) (errors : List Char)
    (openFile : List Char → OpenResult) (read : List Char → α)
    (exts : List (List Char)) : Except PyExc α :=
  if status ≠ 0 then .error (.tesseractError status errors)
  else
    match tryExts openFile read exts with
    | some r => r
    | none => .error (.tesseractError (-1)
        (strL "Unable to find output file (tested " ++ joinSep ',' exts ++ [')']))

/-- The builder classes accepted by the two engines. -/
inductive BuilderKind where
  | textB
  | wordBoxB
  | lineBoxB
  | digitB
  | digitLineBoxB
  | charBoxB
deriving DecidableEq, Repr

/-- Modelled from the spec: pyocr/tesseract.py get_available_builders
(src/tests/tests_tesseract.py test_available_builders). -/
def tesseract_get_available_builders : List BuilderKind :=
  [.lineBoxB, .textB, .wordBoxB, .charBoxB, .digitB, .digitLineBoxB]

/-- Modelled from the spec: pyocr/cuneiform.py get_available_builders
(src/tests/tests_cuneiform.py test_available_builders). -/
def cuneiform_get_available_builders : List BuilderKind :=
  [.textB, .wordBoxB, .lineBoxB]

/-- Modelled from the spec: pyocr/cuneiform.py image_to_string.  A builder
that cuneiform does not support raises NotImplementedError before the
engine is invoked; a non-zero exit status raises CuneiformError with that
status and the captured output; otherwise the output file is read with the
builder (src/tests/tests_cuneiform.py test_digits_not_implemented,
test_text_error, test_text). -/
def cuneiform_image_to_string {α : Type} (builder : BuilderKind) (status : Int)
    (output : List Char) (file : List Char) (read : List Char → α) :
    Except PyExc α :=
  if builder ∈ cuneiform_get_available_builders then
    if status ≠ 0 then .error (.cuneiformError status output)
    else .ok (read file)
  else .error .notImplementedError

/-- A bounding box position: ((x_min, y_min), (x_max, y_max)). -/
abbrev BoxPos := (Nat × Nat) × (Nat × Nat)

/-- Modelled from the spec: pyocr/builders.py Box — a word (or character)
with its position and confidence. -/
structure Box where
  content : List Char
  position : BoxPos
  confidence : Nat
deriving DecidableEq, Repr

/-- Modelled from the spec: pyocr/builders.py LineBox — a list of word
boxes with the position of the line. -/
structure LineBox where
  word_boxes : List Box
  position : BoxPos
deriving DecidableEq, Repr

/-- Modelled from the spec: pyocr/builders.py TextBuilder.start_line —
appends an empty line to built_text
(src/tests/tests_builder.py test_start_line). -/
def TextBuilder.start_line (built_text : List (List Char)) : List (List Char) :=
  built_text ++ [[]]

/-- Modelled from the spec: pyocr/builders.py TextBuilder.add_word — the
word is appended to the last line, preceded by a space when that line is
non-empty; subscripting the last line of an empty built_text raises
IndexError (src/tests/tests_builder.py test_add_word,
test_add_word_no_line). -/
def TextBuilder.add_word (built_text : List (List Char)) (word : List Char) :
    Except PyExc (List (List Char)) :=
  match built_text.getLast? with
  | none => .error .indexError
  | some l => .ok (built_text.dropLast ++ [if l = [] then word else l ++ ' ' :: word])

/-- The Python method mutates the builder in place; this runner returns the
state after the call together with the exception it raised, the state being
unchanged when an exception was raised before any mutation. -/
def TextBuilder.add_word_run (built_text : List (List Char)) (word : List Char) :
    List (List Char) × Option PyExc :=
  match TextBuilder.add_word built_text word with
  | .ok s => (s, none)
  | .error e => (built_text, some e)

/-- Modelled from the spec: pyocr/builders.py TextBuilder.end_line — does
nothing (src/tests/tests_builder.py test_end_line). -/
def TextBuilder.end_line (built_text : List (List Char)) : List (List Char) :=
  built_text

/-- Modelled from the spec: pyocr/builders.py TextBuilder.get_output —
joins the built lines with newlines
(src/tests/tests_builder.py test_get_output). -/
def TextBuilder.get_output (built_text : List (List Char)) : List Char :=
  joinSep '\n' built_text

/-- Modelled from the spec: pyocr/builders.py LineBoxBuilder.start_line —
when the last line is still empty its position is replaced, otherwise a new
empty LineBox is appended, so that no empty line is left behind
(src/tests/tests_builder.py test_start_line for LineBoxBuilder, which
starts the same line twice and expects a single LineBox). -/
def LineBoxBuilder.start_line (lines : List LineBox) (pos : BoxPos) : List LineBox :=
  match lines.getLast? with
  | some lb =>
    if lb.word_boxes = [] then lines.dropLast ++ [⟨[], pos⟩]
    else lines ++ [⟨[], pos⟩]
  | none => lines ++ [⟨[], pos⟩]

/-- Modelled from the spec: pyocr/builders.py LineBoxBuilder.add_word —
appends a Box to the word boxes of the last line; subscripting the last
line of an empty list raises IndexError
(src/tests/tests_builder.py test_add_word_no_line for LineBoxBuilder). -/
def LineBoxBuilder.add_word (lines : List LineBox) (word : List Char)
    (pos : BoxPos) (conf : Nat) : Except PyExc (List LineBox) :=
  match lines.getLast? with
  | none => .error .indexError
  | some lb => .ok (lines.dropLast ++ [⟨lb.word_boxes ++ [⟨word, pos, conf⟩], lb.position⟩])

/-- Runner for LineBoxBuilder.add_word: state after the call plus the
exception raised, the state unchanged when the subscript raised before any
mutation. -/
def LineBoxBuilder.add_word_run (lines : List LineBox) (word : List Char)
    (pos : BoxPos) (conf : Nat) : List LineBox × Option PyExc :=
  match LineBoxBuilder.add_word lines word pos conf with
  | .ok s => (s, none)
  | .error e => (lines, some e)

/-- Modelled from the spec: pyocr/builders.py LineBoxBuilder.end_line —
does nothing (src/tests/tests_builder.py test_end_line). -/
def LineBoxBuilder.end_line (lines : List LineBox) : List LineBox :=
  lines

/-- Events produced by feeding an hOCR document to the HTML parser of the
Python standard library (an external component, abstracted here as the
token stream it hands to the pyocr builders): word spans and line spans
with their parsed title attributes, and character data.  The empty document
produces the empty stream. -/
inductive HocrTok where
  | startWord (position : BoxPos) (confidence : Nat)
  | charData (text : List Char)
  | endWord
  | startLine (position : BoxPos)
  | endLine
deriving DecidableEq, Repr

/-- A value in the heterogeneous Python list returned by read_file: either
a Box or a LineBox (the isinstance checks of the tests distinguish the
two). -/
inductive OcrVal where
  | box (b : Box)
  | lineBox (lb : LineBox)
deriving DecidableEq, Repr

/-- Modelled from the spec: one step of the word-level hOCR parse of
pyocr/builders.py WordBoxBuilder.read_file — a word span opens an
accumulator, character data extends it, and the end of the span emits a
Box; line spans are ignored. -/
def hocr_word_step (st : Option (BoxPos × Nat × List Char) × List OcrVal)
    (tok : HocrTok) : Option (BoxPos × Nat × List Char) × List OcrVal :=
  match tok, st.1 with
  | .startWord p c, _ => (some (p, c, []), st.2)
  | .charData d, some (p, c, txt) => (some (p, c, txt ++ d), st.2)
  | .charData _, none => st
  | .endWord, some (p, c, txt) => (none, st.2 ++ [.box ⟨txt, p, c⟩])
  | .endWord, none => st
  | .startLine _, _ => st
  | .endLine, _ => st

/-- Modelled from the spec: pyocr/builders.py WordBoxBuilder.read_file —
the hOCR document is fed to the word-level HTML parser and the collected
word boxes are returned (src/tests/tests_builder.py test_read_file,
test_empty_read_file for WordBoxBuilder). -/
def WordBoxBuilder.read_file (toks : List HocrTok) : List OcrVal :=
  (toks.foldl hocr_word_step (none, [])).2

/-- Modelled from the spec: one step of the line-level hOCR parse of
pyocr/builders.py LineBoxBuilder.read_file — a line span opens a line, word
spans inside it accumulate boxes, and the end of the line emits a
LineBox. -/
def hocr_line_step
    (st : Option (BoxPos × List Box) × Option (BoxPos × Nat × List Char) × List OcrVal)
    (tok : HocrTok) :
    Option (BoxPos × List Box) × Option (BoxPos × Nat × List Char) × List OcrVal :=
  match tok, st with
  | .startLine p, (_, _, out) => (some (p, []), none, out)
  | .endLine, (some (p, ws), _, out) => (none, none, out ++ [.lineBox ⟨ws, p⟩])
  | .endLine, (none, _, _) => st
  | .startWord p c, (some ln, _, out) => (some ln, some (p, c, []), out)
  | .startWord _ _, (none, _, _) => st
  | .charData d, (ln, some (p, c, txt), out) => (ln, some (p, c, txt ++ d), out)
  | .charData _, (_, none, _) => st
  | .endWord, (some (lp, ws), some (p, c, txt), out) =>
      (some (lp, ws ++ [⟨txt, p, c⟩]), none, out)
  | .endWord, (_, none, _) => st
  | .endWord, (none, some _, _) => st

/-- Modelled from the spec: pyocr/builders.py LineBoxBuilder.read_file —
the hOCR document is fed to the line-level HTML parser and the collected
line boxes are returned (src/tests/tests_builder.py test_read_file,
test_empty_read_file for LineBoxBuilder). -/
def LineBoxBuilder.read_file (toks : List HocrTok) : List OcrVal :=
  (toks.foldl hocr_line_step (none, none, [])).2.2

/-- The scenario of src/tests/tests_builder.py test_get_output for
TextBuilder: two lines of two words each, then get_output. -/
def textBuilderScenario : Except PyExc (List Char) :=
  (TextBuilder.add_word (TextBuilder.start_line []) (strL "word1")).bind fun s1 =>
  (TextBuilder.add_word s1 (strL "word2")).bind fun s2 =>
  (TextBuilder.add_word (TextBuilder.start_line s2) (strL "word3")).bind fun s3 =>
  (TextBuilder.add_word s3 (strL "word4")).map fun s4 =>
  TextBuilder.get_output (TextBuilder.end_line s4)

theorem splitOnChar_ne_nil (c : Char) (l : List Char) : splitOnChar c l ≠ [] := by
  cases l with
  | nil => simp [splitOnChar]
  | cons x xs =>
    unfold splitOnChar
    cases splitOnChar c xs with
    | nil => simp
    | cons h t =>
      by_cases hx : x = c <;> simp [hx]

theorem splitOnChar_of_not_mem {c : Char} {l : List Char} (h : c ∉ l) :
    splitOnChar c l = [l] := by
  induction l with
  | nil => rfl
  | cons x xs ih =>
    have hx : x ≠ c := fun he => h (he ▸ List.mem_cons_self x xs)
    have hxs : c ∉ xs := fun hm => h (List.mem_cons_of_mem x hm)
    unfold splitOnChar
    rw [ih hxs]
    simp [hx]

theorem takeUntilChar_cons (c x : Char) (xs : List Char) :
    takeUntilChar c (x :: xs) = if x = c then [] else x :: takeUntilChar c xs := rfl

theorem leadingDigits_cons (x : Char) (xs : List Char) :
    leadingDigits (x :: xs) = if x.isDigit then x :: leadingDigits xs else [] := rfl

theorem splitOnChar_append_cons {c : Char} {l₁ : List Char} (l₂ : List Char)
    (h : c ∉ l₁) : splitOnChar c (l₁ ++ c :: l₂) = l₁ :: splitOnChar c l₂ := by
  induction l₁ with
  | nil =>
    simp only [List.nil_append]
    cases hs : splitOnChar c l₂ with
    | nil => exact absurd hs (splitOnChar_ne_nil c l₂)
    | cons a b =>
      unfold splitOnChar
      rw [hs]
      simp
  | cons x xs ih =>
    have hx : x ≠ c := fun he => h (he ▸ List.mem_cons_self x xs)
    have hxs : c ∉ xs := fun hm => h (List.mem_cons_of_mem x hm)
    simp only [List.cons_append]
    cases hs : splitOnChar c l₂ with
    | nil => exact absurd hs (splitOnChar_ne_nil c l₂)
    | cons a b =>
      unfold splitOnChar
      rw [ih hxs, hs]
      simp [hx]

theorem headD_splitOnChar (c : Char) (l : List Char) :
    (splitOnChar c l).headD [] = takeUntilChar c l := by
  induction l with
  | nil => rfl
  | cons x xs ih =>
    unfold splitOnChar takeUntilChar
    cases hs : splitOnChar c xs with
    | nil => exact absurd hs (splitOnChar_ne_nil c xs)
    | cons h t =>
      rw [hs] at ih
      by_cases hx : x = c <;> simp [hx, ← ih]

theorem not_mem_of_mem_splitOnChar {c : Char} {l p : List Char}
    (h : p ∈ splitOnChar c l) : c ∉ p := by
  induction l generalizing p with
  | nil =>
    simp [splitOnChar] at h
    simp [h]
  | cons x xs ih =>
    unfold splitOnChar at h
    cases hs : splitOnChar c xs with
    | nil => exact absurd hs (splitOnChar_ne_nil c xs)
    | cons hd tl =>
      rw [hs] at h
      by_cases hx : x = c
      · simp [hx] at h
        rcases h with h | h | h
        · simp [h]
        · exact ih (hs ▸ (h ▸ List.mem_cons_self hd tl))
        · exact ih (hs ▸ List.mem_cons_of_mem hd h)
      · simp [hx] at h
        rcases h with h | h
        · intro hc
          rw [h] at hc
          rcases List.mem_cons.mp hc with he | hm
          · exact hx he.symm
          · exact ih (hs ▸ List.mem_cons_self hd tl) hm
        · exact ih (hs ▸ List.mem_cons_of_mem hd h)

theorem joinSep_splitOnChar (c : Char) (l : List Char) :
    joinSep c (splitOnChar c l) = l := by
  induction l with
  | nil => rfl
  | cons x xs ih =>
    unfold splitOnChar
    cases hs : splitOnChar c xs with
    | nil => exact absurd hs (splitOnChar_ne_nil c xs)
    | cons h t =>
      rw [hs] at ih
      by_cases hx : x = c
      · subst hx
        simp only [if_pos rfl]
        cases t with
        | nil => simpa [joinSep] using congrArg (x :: ·) ih
        | cons t0 ts => simpa [joinSep] using congrArg (x :: ·) ih
      · simp only [if_neg hx]
        cases t with
        | nil => simpa [joinSep] using congrArg (x :: ·) ih
        | cons t0 ts => simpa [joinSep] using congrArg (x :: ·) ih

theorem takeUntilChar_of_not_mem {c : Char} {l : List Char} (h : c ∉ l) :
    takeUntilChar c l = l := by
  induction l with
  | nil => rfl
  | cons x xs ih =>
    have hx : x ≠ c := fun he => h (he ▸ List.mem_cons_self x xs)
    have hxs : c ∉ xs := fun hm => h (List.mem_cons_of_mem x hm)
    unfold takeUntilChar
    simp [hx, ih hxs]

theorem takeUntilChar_append {c : Char} {l₁ : List Char} (l₂ : List Char)
    (h : c ∉ l₁) : takeUntilChar c (l₁ ++ l₂) = l₁ ++ takeUntilChar c l₂ := by
  induction l₁ with
  | nil => rfl
  | cons x xs ih =>
    have hx : x ≠ c := fun he => h (he ▸ List.mem_cons_self x xs)
    have hxs : c ∉ xs := fun hm => h (List.mem_cons_of_mem x hm)
    simp only [List.cons_append, takeUntilChar_cons]
    simp [hx, ih hxs]

theorem takeUntilChar_joinSep_head {c : Char} {p : List Char}
    (ps : List (List Char)) (h : c ∉ p) :
    takeUntilChar c (joinSep c (p :: ps)) = p := by
  cases ps with
  | nil => simpa [joinSep] using takeUntilChar_of_not_mem h
  | cons q qs =>
    show takeUntilChar c (p ++ c :: joinSep c (q :: qs)) = p
    rw [takeUntilChar_append _ h]
    simp [takeUntilChar]

theorem leadingDigits_takeUntil_newline (c : Char) (hc : c.isDigit = false)
    (w : List Char) :
    leadingDigits (takeUntilChar '.' (takeUntilChar c w)) =
      leadingDigits (takeUntilChar '.' w) := by
  induction w with
  | nil => rfl
  | cons x xs ih =>
    simp only [takeUntilChar_cons]
    by_cases hxc : x = c
    · subst hxc
      simp only [if_pos rfl]
      by_cases hxd : x = '.'
      · simp [hxd, takeUntilChar, leadingDigits]
      · simp [hxd, takeUntilChar, leadingDigits_cons, leadingDigits, hc]
    · simp only [if_neg hxc]
      by_cases hxd : x = '.'
      · simp [hxd, takeUntilChar_cons]
      · simp only [takeUntilChar_cons, if_neg hxd, leadingDigits_cons]
        by_cases hdig : x.isDigit
        · simp [hdig, ih]
        · simp [hdig]

theorem pyIntDigits_eq_some {l : List Char} {n : Nat}
    (h : pyIntDigits l = some n) : l ≠ [] ∧ ∀ x ∈ l, x.isDigit = true := by
  unfold pyIntDigits at h
  rcases Decidable.em (l ≠ [] ∧ l.all (·.isDigit) = true) with hc | hc
  · exact ⟨hc.1, fun x hx => by simpa using List.all_eq_true.mp hc.2 x hx⟩
  · rw [if_neg hc] at h
    cases h

theorem digit_char_ne {x c : Char} (hx : x.isDigit = true)
    (hc : c.isDigit = false) : x ≠ c := by
  intro he
  rw [he, hc] at hx
  exact Bool.false_ne_true hx

theorem not_mem_of_all_digits {l : List Char} {c : Char}
    (h : ∀ x ∈ l, x.isDigit = true) (hc : c.isDigit = false) : c ∉ l := by
  intro hm
  exact digit_char_ne (h c hm) hc rfl

theorem isPrefixOfB_append (pat rest : List Char) :
    isPrefixOfB pat (pat ++ rest) = true := by
  induction pat with
  | nil => rfl
  | cons x xs ih => simp [isPrefixOfB, ih]

theorem containsSub_of_eq_append {pat s rest : List Char} (h : s = pat ++ rest) :
    containsSub pat s = true := by
  subst h
  cases pat with
  | nil => cases rest with
    | nil => rfl
    | cons b bs => simp [containsSub, isPrefixOfB]
  | cons p ps =>
    show containsSub (p :: ps) (p :: (ps ++ rest)) = true
    have h1 : isPrefixOfB (p :: ps) (p :: (ps ++ rest)) = true :=
      isPrefixOfB_append (p :: ps) rest
    simp [containsSub, h1]

theorem LineBoxBuilder.start_line_concat_form (lines : List LineBox) (pos : BoxPos) :
    ∃ pre, LineBoxBuilder.start_line lines pos = pre ++ [⟨[], pos⟩] := by
  unfold LineBoxBuilder.start_line
  cases h : lines.getLast? with
  | none => exact ⟨lines, rfl⟩
  | some lb =>
    by_cases hw : lb.word_boxes = []
    · exact ⟨lines.dropLast, by simp [hw]⟩
    · exact ⟨lines, by simp [hw]⟩

/-- C4: TextBuilder reconstructs text from the line/word cursor of the
engine: start_line appends an empty line to built_text, add_word appends
the word to the last line preceded by a single space exactly when that line
is already non-empty, end_line leaves built_text unchanged, get_output
joins the lines with newlines, and the two-lines-of-two-words scenario of
the tests produces the expected two-line string. -/
theorem C4_text_builder_reconstruction :
    (∀ built_text, TextBuilder.start_line built_text = built_text ++ [[]]) ∧
    (∀ init l word, TextBuilder.add_word (init ++ [l]) word =
      .ok (init ++ [if l = [] then word else l ++ ' ' :: word])) ∧
    (∀ built_text, TextBuilder.end_line built_text = built_text) ∧
    (∀ built_text, TextBuilder.get_output built_text = joinSep '\n' built_text) ∧
    textBuilderScenario = .ok (strL "word1 word2\nword3 word4") := by
  refine ⟨fun _ => rfl, ?_, fun _ => rfl, fun _ => rfl, rfl⟩
  intro init l word
  unfold TextBuilder.add_word
  rw [List.getLast?_concat, List.dropLast_concat]

/-- C8: with no started line, add_word raises IndexError and leaves the
accumulated builder state unchanged, both for TextBuilder (built_text still
empty) and for LineBoxBuilder (lines still empty). -/
theorem C8_add_word_no_line :
    (∀ word, TextBuilder.add_word_run [] word = ([], some PyExc.indexError)) ∧
    (∀ word pos conf, LineBoxBuilder.add_word_run [] word pos conf =
      ([], some PyExc.indexError)) :=
  ⟨fun _ => rfl, fun _ _ _ => rfl⟩

/-- C9: LineBoxBuilder.start_line is idempotent: starting the same line
position twice in a row leaves the builder as after starting it once, and
from the empty builder the state is the one-element list with an empty
LineBox at that position. -/
theorem C9_start_line_idempotent :
    (∀ lines pos, LineBoxBuilder.start_line (LineBoxBuilder.start_line lines pos) pos =
      LineBoxBuilder.start_line lines pos) ∧
    (∀ pos, LineBoxBuilder.start_line [] pos = [⟨[], pos⟩]) := by
  constructor
  · intro lines pos
    obtain ⟨pre, hp⟩ := LineBoxBuilder.start_line_concat_form lines pos
    rw [hp]
    unfold LineBoxBuilder.start_line
    rw [List.getLast?_concat]
    simp [List.dropLast_concat]
  · intro pos
    rfl

/-- C7 counterexample: cuneiform.image_to_string with a DigitBuilder does
not return a digit-string result the way the tesseract backend does; even
with exit status 0 and a readable output file it raises
NotImplementedError (src/tests/tests_cuneiform.py
test_digits_not_implemented). -/
theorem C7_digits_counterexample :
    cuneiform_image_to_string BuilderKind.digitB 0 (strL "Cuneiform for Linux 1.1.0\n")
      (strL "12345") (fun c => c) = .error PyExc.notImplementedError := rfl

/-- C7 amended: the interface is uniform across engines for the text, word
box and line box builders, but digit builders are tesseract-only: they are
absent from cuneiform.get_available_builders and cuneiform.image_to_string
raises NotImplementedError for them, while the tesseract backend lists
them; for every supported builder cuneiform returns the output file read by
the builder. -/
theorem C7_uniform_interface_amended :
    BuilderKind.digitB ∉ cuneiform_get_available_builders ∧
    BuilderKind.digitLineBoxB ∉ cuneiform_get_available_builders ∧
    (∀ status output file, cuneiform_image_to_string BuilderKind.digitB status output
      file (fun c => c) = .error PyExc.notImplementedError) ∧
    (∀ status output file, cuneiform_image_to_string BuilderKind.digitLineBoxB status
      output file (fun c => c) = .error PyExc.notImplementedError) ∧
    BuilderKind.digitB ∈ tesseract_get_available_builders ∧
    BuilderKind.digitLineBoxB ∈ tesseract_get_available_builders ∧
    (∀ builder, builder ∈ cuneiform_get_available_builders →
      ∀ file, cuneiform_image_to_string builder 0 [] file (fun c => c) = .ok file) := by
  refine ⟨by decide, by decide, fun _ _ _ => rfl, fun _ _ _ => rfl, by decide, by decide, ?_⟩
  intro builder hb file
  unfold cuneiform_image_to_string
  rw [if_pos hb]
  rfl

theorem C7_uniform_interface_amended_witness :
    cuneiform_image_to_string BuilderKind.textB 0 [] (strL "abc") (fun c => c) =
      .ok (strL "abc") :=
  C7_uniform_interface_amended.2.2.2.2.2.2 BuilderKind.textB (by decide) (strL "abc")

/-- C1 counterexample: on a non-zero exit of the language listing the
raised TesseractError carries the fixed message "unable to get languages",
not the engine output, refuting the claim at the input of
src/tests/tests_tesseract.py test_langs_error. -/
theorem C1_langs_message_counterexample :
    tesseract_get_available_languages 1 (strL "No languages\n") =
      .error (.tesseractError 1 (strL "unable to get languages")) ∧
    strL "unable to get languages" ≠ strL "No languages\n" :=
  ⟨rfl, by decide⟩

/-- C1 amended: every non-zero engine exit raises the engine-specific
error with that status and no retry: tesseract.image_to_string and
cuneiform.image_to_string attach the engine output as the message, while
tesseract.get_available_languages attaches the fixed message "unable to
get languages". -/
theorem C1_nonzero_exit_raises :
    (∀ (α : Type) status errors openFile (read : List Char → α) exts, status ≠ 0 →
      tesseract_image_to_string status errors openFile read exts =
        .error (.tesseractError status errors)) ∧
    (∀ (α : Type) builder status output file (read : List Char → α),
      builder ∈ cuneiform_get_available_builders → status ≠ 0 →
      cuneiform_image_to_string builder status output file read =
        .error (.cuneiformError status output)) ∧
    (∀ status output, status ≠ 0 →
      tesseract_get_available_languages status output =
        .error (.tesseractError status (strL "unable to get languages"))) := by
  refine ⟨?_, ?_, ?_⟩
  · intro α status errors openFile read exts h
    unfold tesseract_image_to_string
    rw [if_pos h]
  · intro α builder status output file read hb h
    unfold cuneiform_image_to_string
    rw [if_pos hb, if_pos h]
  · intro status output h
    unfold tesseract_get_available_languages
    rw [if_pos h]

theorem C1_nonzero_exit_raises_witness :
    tesseract_image_to_string 1 (strL "Error") (fun _ => OpenResult.fileNotFound)
      (fun c => c) [strL "txt"] = .error (.tesseractError 1 (strL "Error")) ∧
    cuneiform_image_to_string BuilderKind.textB 1 (strL "Magick: Improper image header")
      [] (fun c => c) = .error (.cuneiformError 1 (strL "Magick: Improper image header")) ∧
    tesseract_get_available_languages 1 (strL "No languages\n") =
      .error (.tesseractError 1 (strL "unable to get languages")) :=
  ⟨C1_nonzero_exit_raises.1 (List Char) 1 (strL "Error") (fun _ => OpenResult.fileNotFound)
      (fun c => c) [strL "txt"] (by decide),
   C1_nonzero_exit_raises.2.1 (List Char) BuilderKind.textB 1
      (strL "Magick: Improper image header") [] (fun c => c) (by decide) (by decide),
   C1_nonzero_exit_raises.2.2 1 (strL "No languages\n") (by decide)⟩

/-- C3 counterexample: get_version is cached.  A first call with an empty
cache parses the banner and stores the triple; a second call whose current
engine output is the unparsable string garbage still returns the cached
triple with the engine-invoked flag false, even though parsing that output
would fail, refuting the claim at the input of
src/tests/tests_tesseract.py test_version_cache. -/
theorem C3_version_cache_counterexample :
    tesseract_get_version none (strL "tesseract 4.0.0\n leptonica-1.76.0\n") 0 =
      .ok ((4, 0, 0), true, some (4, 0, 0)) ∧
    tesseract_get_version (some (4, 0, 0)) (strL "garbage") 0 =
      .ok ((4, 0, 0), false, some (4, 0, 0)) ∧
    tesseract_parse_version (strL "garbage") =
      .error (.tesseractError 0 (splitFailMsg (strL "garbage"))) :=
  ⟨rfl, rfl, rfl⟩

/-- C3 amended: tesseract.get_version caches its parsed result in the
module global g_version: with a populated cache it returns the cached
triple without invoking the engine and regardless of what the engine would
currently print, and with an empty cache it invokes the engine and parses
the current banner. -/
theorem C3_version_cache_amended :
    (∀ v banner ret, tesseract_get_version (some v) banner ret = .ok (v, false, some v)) ∧
    (∀ banner v, tesseract_parse_version banner = .ok v →
      tesseract_get_version none banner 0 = .ok (v, true, some v)) := by
  constructor
  · intro v banner ret
    rfl
  · intro banner v h
    simp [tesseract_get_version, h]

theorem C3_version_cache_amended_witness :
    tesseract_get_version (some (4, 0, 0)) (strL "garbage") 2 =
      .ok ((4, 0, 0), false, some (4, 0, 0)) ∧
    tesseract_get_version none (strL "tesseract 3.05\n") 0 =
      .ok ((3, 5, 0), true, some (3, 5, 0)) :=
  ⟨C3_version_cache_amended.1 (4, 0, 0) (strL "garbage") 2,
   C3_version_cache_amended.2 (strL "tesseract 3.05\n") (3, 5, 0) rfl⟩

theorem containsSub_append (pat rest : List Char) :
    containsSub pat (pat ++ rest) = true := by
  cases pat with
  | nil =>
    cases rest with
    | nil => rfl
    | cons b bs => simp [containsSub, isPrefixOfB]
  | cons p ps =>
    show containsSub (p :: ps) (p :: (ps ++ rest)) = true
    have h1 : isPrefixOfB (p :: ps) (p :: (ps ++ rest)) = true :=
      isPrefixOfB_append (p :: ps) rest
    simp [containsSub, h1]

theorem not_mem_pyVStrip {c : Char} {l : List Char} (h : c ∉ l) : c ∉ pyVStrip l := by
  cases l with
  | nil => exact h
  | cons x xs =>
    unfold pyVStrip
    by_cases hx : x = 'v'
    · simp only [if_pos hx]
      exact fun hm => h (List.mem_cons_of_mem x hm)
    · simp only [if_neg hx]
      exact h

theorem get_version_none_ok {banner : List Char} {v : Nat × Nat × Nat}
    (h : tesseract_parse_version banner = .ok v) :
    tesseract_get_version none banner 0 = .ok (v, true, some v) := by
  simp [tesseract_get_version, h]

theorem get_version_none_error {banner : List Char} {e : PyExc}
    (h : tesseract_parse_version banner = .error e) :
    tesseract_get_version none banner 0 = .error e := by
  simp [tesseract_get_version, h]

theorem splitFailMsg_contains (banner : List Char) :
    containsSub (strL "Unable to parse Tesseract version (spliting failed): ")
      (splitFailMsg banner) = true := by
  have h : splitFailMsg banner =
      strL "Unable to parse Tesseract version (spliting failed): " ++
        ('[' :: (banner ++ [']'])) := by
    unfold splitFailMsg
    rw [show strL "Unable to parse Tesseract version (spliting failed): [" =
      strL "Unable to parse Tesseract version (spliting failed): " ++ ['['] from rfl]
    simp
  rw [h]
  exact containsSub_append _ _

theorem nanMsg_contains (banner : List Char) :
    containsSub (strL "Unable to parse Tesseract version (not a number): ")
      (nanMsg banner) = true := by
  have h : nanMsg banner =
      strL "Unable to parse Tesseract version (not a number): " ++
        ('[' :: (banner ++ [']'])) := by
    unfold nanMsg
    rw [show strL "Unable to parse Tesseract version (not a number): [" =
      strL "Unable to parse Tesseract version (not a number): " ++ ['['] from rfl]
    simp
  rw [h]
  exact containsSub_append _ _

theorem tryExts_all_fnf {α : Type} (openFile : List Char → OpenResult)
    (read : List Char → α) (exts : List (List Char))
    (h : ∀ e ∈ exts, openFile e = OpenResult.fileNotFound) :
    tryExts openFile read exts = none := by
  induction exts with
  | nil => rfl
  | cons e rest ih =>
    unfold tryExts
    rw [h e (List.mem_cons_self e rest)]
    exact ih (fun x hx => h x (List.mem_cons_of_mem e hx))

theorem tryExts_other_after_fnf {α : Type} (openFile : List Char → OpenResult)
    (read : List Char → α) (pre : List (List Char)) (e : List Char)
    (rest : List (List Char)) (exc : PyExc)
    (hpre : ∀ x ∈ pre, openFile x = OpenResult.fileNotFound)
    (he : openFile e = OpenResult.otherError exc) :
    tryExts openFile read (pre ++ e :: rest) = some (.error exc) := by
  induction pre with
  | nil =>
    simp only [List.nil_append]
    unfold tryExts
    rw [he]
  | cons p ps ih =>
    simp only [List.cons_append]
    unfold tryExts
    rw [hpre p (List.mem_cons_self p ps)]
    exact ih (fun x hx => hpre x (List.mem_cons_of_mem p hx))

/-- C10: with exit status 0, when opening the output file raises
FileNotFoundError for every builder file extension, image_to_string raises
TesseractError with status -1 and a message containing the text Unable to
find output file (tested; any other exception raised while opening, such
as PermissionError, propagates unchanged. -/
theorem C10_missing_output_file :
    (∀ (α : Type) errors openFile (read : List Char → α) exts,
      (∀ e ∈ exts, openFile e = OpenResult.fileNotFound) →
      tesseract_image_to_string 0 errors openFile read exts =
        .error (.tesseractError (-1)
          (strL "Unable to find output file (tested " ++ joinSep ',' exts ++ [')'])) ∧
      containsSub (strL "Unable to find output file (tested")
        (strL "Unable to find output file (tested " ++ joinSep ',' exts ++ [')']) = true) ∧
    (∀ (α : Type) errors openFile (read : List Char → α) pre e rest exc,
      (∀ x ∈ pre, openFile x = OpenResult.fileNotFound) →
      openFile e = OpenResult.otherError exc →
      tesseract_image_to_string 0 errors openFile read (pre ++ e :: rest) =
        .error exc) := by
  constructor
  · intro α errors openFile read exts h
    constructor
    · unfold tesseract_image_to_string
      rw [if_neg (by decide : ¬ (0 : Int) ≠ 0), tryExts_all_fnf openFile read exts h]
    · have h2 : strL "Unable to find output file (tested " ++ joinSep ',' exts ++ [')'] =
          strL "Unable to find output file (tested" ++
            (' ' :: (joinSep ',' exts ++ [')'])) := by
        rw [show strL "Unable to find output file (tested " =
          strL "Unable to find output file (tested" ++ [' '] from rfl]
        simp
      rw [h2]
      exact containsSub_append _ _
  · intro α errors openFile read pre e rest exc hpre he
    unfold tesseract_image_to_string
    rw [if_neg (by decide : ¬ (0 : Int) ≠ 0),
      tryExts_other_after_fnf openFile read pre e rest exc hpre he]

theorem C10_missing_output_file_witness :
    tesseract_image_to_string 0 (strL "No file output") (fun _ => OpenResult.fileNotFound)
      (fun c => c) [strL "txt"] =
      .error (.tesseractError (-1)
        (strL "Unable to find output file (tested " ++ joinSep ',' [strL "txt"] ++ [')'])) ∧
    tesseract_image_to_string 0 []
      (fun _ => OpenResult.otherError (PyExc.otherExc (strL "PermissionError")))
      (fun c => c) ([] ++ strL "txt" :: []) =
      .error (PyExc.otherExc (strL "PermissionError")) :=
  ⟨(C10_missing_output_file.1 (List Char) (strL "No file output")
      (fun _ => OpenResult.fileNotFound) (fun c => c) [strL "txt"]
      (fun _ _ => rfl)).1,
   C10_missing_output_file.2 (List Char) []
      (fun _ => OpenResult.otherError (PyExc.otherExc (strL "PermissionError")))
      (fun c => c) [] (strL "txt") [] (PyExc.otherExc (strL "PermissionError"))
      (fun x hx => absurd hx (List.not_mem_nil x)) rfl⟩

/-- C2: tesseract.get_version parses the second whitespace-separated token
of the version banner into a triple: the banners of the tests give (3,5,0),
(3,0,0) and (4,0,0) with a leading v and trailing text such as dev2, alpha
or a datestamp ignored; every banner whose version token has no dot raises
TesseractError with status 0 and a message containing the splitting-failed
text, and every banner whose first two dot-components are not numbers
raises TesseractError with status 0 and a message containing the
not-a-number text. -/
theorem C2_version_parsing :
    tesseract_get_version none (strL "tesseract 3.05\n leptonica-1.76.0\n") 0 =
      .ok ((3, 5, 0), true, some (3, 5, 0)) ∧
    tesseract_get_version none (strL "tesseract 3.0\n leptonica-1.76.0\n") 0 =
      .ok ((3, 0, 0), true, some (3, 0, 0)) ∧
    tesseract_get_version none (strL "tesseract 4.0.0\n leptonica-1.76.0\n") 0 =
      .ok ((4, 0, 0), true, some (4, 0, 0)) ∧
    tesseract_get_version none (strL "tesseract 4.00.00dev2\n leptonica-1.76.0\n") 0 =
      .ok ((4, 0, 0), true, some (4, 0, 0)) ∧
    tesseract_get_version none (strL "tesseract 4.00.00alpha\n leptonica-1.76.0\n") 0 =
      .ok ((4, 0, 0), true, some (4, 0, 0)) ∧
    tesseract_get_version none (strL "tesseract v4.0.0.20181030\n leptonica-1.76.0\n") 0 =
      .ok ((4, 0, 0), true, some (4, 0, 0)) ∧
    (∀ banner x t r, splitOnChar ' ' banner = x :: t :: r →
      ('.' : Char) ∉ takeUntilChar '\n' t →
      tesseract_get_version none banner 0 =
        .error (.tesseractError 0 (splitFailMsg banner)) ∧
      containsSub (strL "Unable to parse Tesseract version (spliting failed): ")
        (splitFailMsg banner) = true) ∧
    (∀ banner x t r a b rest, splitOnChar ' ' banner = x :: t :: r →
      splitOnChar '.' (pyVStrip (takeUntilChar '\n' t)) = a :: b :: rest →
      pyIntDigits a = none ∨ pyIntDigits b = none →
      tesseract_get_version none banner 0 =
        .error (.tesseractError 0 (nanMsg banner)) ∧
      containsSub (strL "Unable to parse Tesseract version (not a number): ")
        (nanMsg banner) = true) := by
  refine ⟨rfl, rfl, rfl, rfl, rfl, rfl, ?_, ?_⟩
  · intro banner x t r hs hd
    have htok : tesseract_parse_version banner =
        tesseract_parse_token banner (takeUntilChar '\n' t) := by
      unfold tesseract_parse_version
      rw [hs]
    have hnm : ('.' : Char) ∉ pyVStrip (takeUntilChar '\n' t) := not_mem_pyVStrip hd
    have hp : tesseract_parse_token banner (takeUntilChar '\n' t) =
        .error (.tesseractError 0 (splitFailMsg banner)) := by
      unfold tesseract_parse_token
      rw [splitOnChar_of_not_mem hnm]
    exact ⟨get_version_none_error (htok.trans hp), splitFailMsg_contains banner⟩
  · intro banner x t r a b rest hs hsplit hab
    have htok : tesseract_parse_version banner =
        tesseract_parse_token banner (takeUntilChar '\n' t) := by
      unfold tesseract_parse_version
      rw [hs]
    have hp : tesseract_parse_token banner (takeUntilChar '\n' t) =
        .error (.tesseractError 0 (nanMsg banner)) := by
      unfold tesseract_parse_token
      simp only [hsplit]
      rcases hab with h1 | h1
      · simp only [h1]
      · simp only [h1]
        cases pyIntDigits a <;> rfl
    exact ⟨get_version_none_error (htok.trans hp), nanMsg_contains banner⟩

theorem C2_version_parsing_witness :
    tesseract_get_version none (strL "tesseract 3\n leptonica-1.76.0\n") 0 =
      .error (.tesseractError 0 (splitFailMsg (strL "tesseract 3\n leptonica-1.76.0\n"))) ∧
    tesseract_get_version none (strL "tesseract A.B.C\n leptonica-1.76.0\n") 0 =
      .error (.tesseractError 0 (nanMsg (strL "tesseract A.B.C\n leptonica-1.76.0\n"))) :=
  ⟨(C2_version_parsing.2.2.2.2.2.2.1 (strL "tesseract 3\n leptonica-1.76.0\n")
      (strL "tesseract") (strL "3\n") [strL "leptonica-1.76.0\n"]
      (by decide) (by decide)).1,
   (C2_version_parsing.2.2.2.2.2.2.2 (strL "tesseract A.B.C\n leptonica-1.76.0\n")
      (strL "tesseract") (strL "A.B.C\n") [strL "leptonica-1.76.0\n"]
      (strL "A") (strL "B") [strL "C"]
      (by decide) (by decide) (Or.inl (by decide))).1⟩

theorem hocr_word_fold_boxes (toks : List HocrTok) :
    ∀ st, (∀ v ∈ st.2, ∃ b, v = OcrVal.box b) →
      ∀ v ∈ (toks.foldl hocr_word_step st).2, ∃ b, v = OcrVal.box b := by
  induction toks with
  | nil => exact fun st h => h
  | cons tok ts ih =>
    intro st h
    rw [List.foldl_cons]
    apply ih
    intro v hv
    rcases st with ⟨cur, out⟩
    cases tok with
    | startWord p c => exact h v hv
    | charData d =>
      cases cur with
      | none => exact h v hv
      | some w => exact h v hv
    | endWord =>
      cases cur with
      | none => exact h v hv
      | some w =>
        rcases w with ⟨p, c, txt⟩
        simp only [hocr_word_step] at hv
        rcases List.mem_append.mp hv with hm | hm
        · exact h v hm
        · rcases List.mem_singleton.mp hm with rfl
          exact ⟨_, rfl⟩
    | startLine p => exact h v hv
    | endLine => exact h v hv

theorem hocr_line_fold_lineboxes (toks : List HocrTok) :
    ∀ st, (∀ v ∈ st.2.2, ∃ lb, v = OcrVal.lineBox lb) →
      ∀ v ∈ (toks.foldl hocr_line_step st).2.2, ∃ lb, v = OcrVal.lineBox lb := by
  induction toks with
  | nil => exact fun st h => h
  | cons tok ts ih =>
    intro st h
    rw [List.foldl_cons]
    apply ih
    intro v hv
    rcases st with ⟨ln, cur, out⟩
    cases tok with
    | startWord p c =>
      cases ln with
      | none => exact h v hv
      | some l => exact h v hv
    | charData d =>
      cases cur with
      | none => exact h v hv
      | some w => exact h v hv
    | endWord =>
      cases ln with
      | none =>
        cases cur with
        | none => exact h v hv
        | some w => exact h v hv
      | some l =>
        cases cur with
        | none => exact h v hv
        | some w =>
          rcases l with ⟨lp, ws⟩
          rcases w with ⟨p, c, txt⟩
          exact h v hv
    | startLine p => exact h v hv
    | endLine =>
      cases ln with
      | none => exact h v hv
      | some l =>
        rcases l with ⟨lp, ws⟩
        simp only [hocr_line_step] at hv
        rcases List.mem_append.mp hv with hm | hm
        · exact h v hm
        · rcases List.mem_singleton.mp hm with rfl
          exact ⟨_, rfl⟩

/-- C5: for every hOCR token stream the word-box builder returns a list
containing only Box values and the line-box builder returns a list
containing only LineBox values, and on the empty document (which yields the
empty token stream) both return the empty list. -/
theorem C5_read_file_value_kinds :
    WordBoxBuilder.read_file [] = [] ∧
    LineBoxBuilder.read_file [] = [] ∧
    (∀ toks v, v ∈ WordBoxBuilder.read_file toks → ∃ b, v = OcrVal.box b) ∧
    (∀ toks v, v ∈ LineBoxBuilder.read_file toks → ∃ lb, v = OcrVal.lineBox lb) := by
  refine ⟨rfl, rfl, ?_, ?_⟩
  · intro toks v hv
    exact hocr_word_fold_boxes toks (none, []) (by simp) v hv
  · intro toks v hv
    exact hocr_line_fold_lineboxes toks (none, none, []) (by simp) v hv

theorem C5_read_file_value_kinds_witness :
    (∃ b, OcrVal.box ⟨strL "hi", ((0, 1), (2, 3)), 42⟩ = OcrVal.box b) ∧
    (∃ lb, OcrVal.lineBox ⟨[], ((0, 0), (1, 1))⟩ = OcrVal.lineBox lb) :=
  ⟨C5_read_file_value_kinds.2.2.1
      [HocrTok.startWord ((0, 1), (2, 3)) 42, HocrTok.charData (strL "hi"), HocrTok.endWord]
      (OcrVal.box ⟨strL "hi", ((0, 1), (2, 3)), 42⟩) (by decide),
   C5_read_file_value_kinds.2.2.2
      [HocrTok.startLine ((0, 0), (1, 1)), HocrTok.endLine]
      (OcrVal.lineBox ⟨[], ((0, 0), (1, 1))⟩) (by decide)⟩

theorem pyVStrip_of_head_digit {a : List Char} (w : List Char) (hane : a ≠ [])
    (hadig : ∀ x ∈ a, x.isDigit = true) :
    pyVStrip (a ++ w) = a ++ w := by
  cases a with
  | nil => exact absurd rfl hane
  | cons d a2 =>
    have hd : d ≠ 'v' := digit_char_ne (hadig d (List.mem_cons_self d a2)) (by decide)
    simp [pyVStrip, hd]

theorem lib_shell_version_agree (s : List Char) (v : Nat × Nat × Nat)
    (h : libtesseract_get_version s = some v) :
    tesseract_parse_version (strL "tesseract " ++ s) = .ok v := by
  cases hsplit : splitOnChar '.' (takeUntilChar ' ' s) with
  | nil =>
    unfold libtesseract_get_version at h
    simp only [hsplit] at h
    cases h
  | cons a tail =>
    cases tail with
    | nil =>
      unfold libtesseract_get_version at h
      simp only [hsplit] at h
      cases h
    | cons b rest =>
      unfold libtesseract_get_version at h
      simp only [hsplit] at h
      cases ha : pyIntDigits a with
      | none =>
        rw [ha] at h
        cases hb : pyIntDigits b <;> rw [hb] at h <;> cases h
      | some ma =>
        rw [ha] at h
        cases hb : pyIntDigits b with
        | none =>
          rw [hb] at h
          cases h
        | some mi =>
          rw [hb] at h
          have hv : v = (ma, mi, patchNum rest) := (Option.some.inj h).symm
          subst hv
          obtain ⟨hane, hadig⟩ := pyIntDigits_eq_some ha
          obtain ⟨hbne, hbdig⟩ := pyIntDigits_eq_some hb
          have hadot : ('.' : Char) ∉ a := not_mem_of_mem_splitOnChar (by
            rw [hsplit]; exact List.mem_cons_self a _)
          have hbdot : ('.' : Char) ∉ b := not_mem_of_mem_splitOnChar (by
            rw [hsplit]; exact List.mem_cons_of_mem a (List.mem_cons_self b rest))
          have hanl : ('\n' : Char) ∉ a := not_mem_of_all_digits hadig (by decide)
          have hbnl : ('\n' : Char) ∉ b := not_mem_of_all_digits hbdig (by decide)
          have ht : a ++ '.' :: joinSep '.' (b :: rest) = takeUntilChar ' ' s := by
            have hj := joinSep_splitOnChar '.' (takeUntilChar ' ' s)
            rw [hsplit] at hj
            exact hj
          have hbsp : splitOnChar ' ' (strL "tesseract " ++ s) =
              strL "tesseract" :: splitOnChar ' ' s := by
            rw [show strL "tesseract " ++ s = strL "tesseract" ++ ' ' :: s from rfl]
            exact splitOnChar_append_cons s (by decide)
          cases hss : splitOnChar ' ' s with
          | nil => exact absurd hss (splitOnChar_ne_nil ' ' s)
          | cons t0 ts =>
            have ht0 : t0 = takeUntilChar ' ' s := by
              have hh := headD_splitOnChar ' ' s
              rw [hss] at hh
              exact hh
            have hgoal : tesseract_parse_version (strL "tesseract " ++ s) =
                tesseract_parse_token (strL "tesseract " ++ s) (takeUntilChar '\n' t0) := by
              unfold tesseract_parse_version
              rw [hbsp, hss]
            rw [hgoal, ht0, ← ht]
            rw [takeUntilChar_append _ hanl, takeUntilChar_cons,
              if_neg (by decide : ¬ ('.' : Char) = '\n')]
            cases rest with
            | nil =>
              rw [show joinSep '.' [b] = b from rfl, takeUntilChar_of_not_mem hbnl]
              unfold tesseract_parse_token
              rw [pyVStrip_of_head_digit _ hane hadig, splitOnChar_append_cons _ hadot,
                splitOnChar_of_not_mem hbdot]
              simp only [ha, hb]
            | cons c0 rest2 =>
              rw [show joinSep '.' (b :: c0 :: rest2) =
                b ++ '.' :: joinSep '.' (c0 :: rest2) from rfl]
              rw [takeUntilChar_append _ hbnl, takeUntilChar_cons,
                if_neg (by decide : ¬ ('.' : Char) = '\n')]
              unfold tesseract_parse_token
              rw [pyVStrip_of_head_digit _ hane hadig, splitOnChar_append_cons _ hadot,
                splitOnChar_append_cons _ hbdot]
              cases hz : splitOnChar '.' (takeUntilChar '\n' (joinSep '.' (c0 :: rest2))) with
              | nil => exact absurd hz (splitOnChar_ne_nil _ _)
              | cons z0 z1 =>
                have hz0 : z0 = takeUntilChar '.'
                    (takeUntilChar '\n' (joinSep '.' (c0 :: rest2))) := by
                  have hh := headD_splitOnChar '.'
                    (takeUntilChar '\n' (joinSep '.' (c0 :: rest2)))
                  rw [hz] at hh
                  exact hh
                have hc0dot : ('.' : Char) ∉ c0 := not_mem_of_mem_splitOnChar (by
                  rw [hsplit]
                  exact List.mem_cons_of_mem a
                    (List.mem_cons_of_mem b (List.mem_cons_self c0 rest2)))
                have hju : takeUntilChar '.' (joinSep '.' (c0 :: rest2)) = c0 :=
                  takeUntilChar_joinSep_head rest2 hc0dot
                have hld : leadingDigits z0 = leadingDigits c0 := by
                  rw [hz0, leadingDigits_takeUntil_newline '\n' (by decide), hju]
                simp only [ha, hb]
                show Except.ok (ma, mi, patchNum (z0 :: z1)) =
                  Except.ok (ma, mi, patchNum (c0 :: rest2))
                simp only [patchNum]
                rw [hld]

/-- C6: the shell wrapper and the C-API wrapper parse version strings
identically: whenever libtesseract.get_version accepts a version string s,
tesseract.get_version applied to the banner beginning with tesseract and
then s (with an empty cache and exit status 0) returns the same triple; in
particular 3.05 gives (3, 5, 0) and 4.0.0 gives (4, 0, 0) in both, and
4.0.0aplha and 3.5.1dev1 are parsed alike by both. -/
theorem C6_version_parsers_agree :
    (∀ s v, libtesseract_get_version s = some v →
      tesseract_get_version none (strL "tesseract " ++ s) 0 = .ok (v, true, some v)) ∧
    libtesseract_get_version (strL "3.05") = some (3, 5, 0) ∧
    tesseract_get_version none (strL "tesseract 3.05") 0 =
      .ok ((3, 5, 0), true, some (3, 5, 0)) ∧
    libtesseract_get_version (strL "4.0.0") = some (4, 0, 0) ∧
    tesseract_get_version none (strL "tesseract 4.0.0") 0 =
      .ok ((4, 0, 0), true, some (4, 0, 0)) ∧
    libtesseract_get_version (strL "4.0.0aplha") = some (4, 0, 0) ∧
    tesseract_get_version none (strL "tesseract 4.0.0aplha") 0 =
      .ok ((4, 0, 0), true, some (4, 0, 0)) ∧
    libtesseract_get_version (strL "3.5.1dev1") = some (3, 5, 1) ∧
    tesseract_get_version none (strL "tesseract 3.5.1dev1") 0 =
      .ok ((3, 5, 1), true, some (3, 5, 1)) := by
  refine ⟨?_, rfl, rfl, rfl, rfl, rfl, rfl, rfl, rfl⟩
  intro s v h
  exact get_version_none_ok (lib_shell_version_agree s v h)

theorem C6_version_parsers_agree_witness :
    tesseract_get_version none (strL "tesseract 3.05") 0 =
      .ok ((3, 5, 0), true, some (3, 5, 0)) :=
  C6_version_parsers_agree.1 (strL "3.05") (3, 5, 0) rfl
